import Mathlib

/-!
Shallow embedding of the attendance-sync programs (main.py, sync_all.py).

Modelling conventions:
- An attendance record is the dict built by the capture/collect code:
  device_id, user_id, timestamp, status, punch.  Timestamps are modelled as
  naturals: the code formats them with the fixed-width pattern
  "%Y-%m-%d %H:%M:%S", under which lexicographic string order (the sort key
  used in sync_all.main) coincides with chronological order, and datetime
  comparison (used by in_range) likewise.
- One HTTP POST attempt has an outcome: a status code, or a raised
  transport exception.  The outcome of the attempt is an input to the
  embedded function (the network is the environment).
- Mutation of a Python list argument is made explicit: the embedded
  function returns the contents of that argument after the call.
-/

structure AttendanceRecord where
  device_id : Nat
  user_id : Nat
  timestamp : Nat
  status : Nat
  punch : Nat
deriving DecidableEq, Repr

/-- Outcome of a single HTTP POST attempt: a response with a status code,
or a transport-level exception raised by the client. -/
inductive PostResult where
  | status (code : Nat)
  | exc
deriving DecidableEq, Repr

/-- The JSON body sent by both push paths: a single object with the one
array field named Json holding the records. -/
structure Payload where
  Json : List AttendanceRecord
deriving DecidableEq, Repr

/-- Telegram notifications emitted by push_to_server (modelled as tags;
composing/sending the text is out of scope). -/
inductive PushNotice where
  | pushSuccess
  | pushFailed
  | pushError
deriving DecidableEq, Repr

/-- Result of one push_to_server call: the returned boolean, the buffer
contents after the call (the code may clear the buffer in place), the
POSTs attempted, and the notifications sent. -/
structure PushOutcome where
  ret : Bool
  buffer : List AttendanceRecord
  posts : List Payload
  notices : List PushNotice
deriving DecidableEq, Repr

/-- main.py push_to_server (lines 182-239).
Empty (falsy) buffer: return True at once, no POST, no notification.
Otherwise copy the buffer out (data_copy), POST the payload once, and:
on HTTP 200 notify success, clear the buffer in place and return True;
on any other status notify failure and return False leaving the buffer;
on a raised exception notify the error and return False leaving the
buffer.  The single POST attempt's outcome is the resp argument. -/
def push_to_server (attendance_buffer : List AttendanceRecord) (resp : PostResult) : PushOutcome :=
  if attendance_buffer.isEmpty then
    { ret := true, buffer := attendance_buffer, posts := [], notices := [] }
  else
    let data_copy := attendance_buffer
    match resp with
    | .status 200 =>
        { ret := true, buffer := [], posts := [⟨data_copy⟩], notices := [.pushSuccess] }
    | .status _ =>
        { ret := false, buffer := attendance_buffer, posts := [⟨data_copy⟩], notices := [.pushFailed] }
    | .exc =>
        { ret := false, buffer := attendance_buffer, posts := [⟨data_copy⟩], notices := [.pushError] }

/-- C1: a non-empty buffer of N records whose POST answers 200 yields
exactly one POST whose single-array-field body holds those N records in
buffer order, a True return, and an empty buffer afterwards. -/
theorem push_to_server_success_delivers_batch
    (buffer : List AttendanceRecord) (n : Nat)
    (hn : buffer.length = n) (hpos : 0 < n) :
    (push_to_server buffer (.status 200)).ret = true ∧
    (push_to_server buffer (.status 200)).posts = [⟨buffer⟩] ∧
    (push_to_server buffer (.status 200)).posts.length = 1 ∧
    (push_to_server buffer (.status 200)).buffer = [] := by
  have hne : buffer.isEmpty = false := by
    cases buffer with
    | nil => simp at hn; omega
    | cons a l => rfl
  simp [push_to_server, hne]

/-- Witness for C1 at a concrete one-record buffer. -/
theorem push_to_server_success_delivers_batch_witness :
    (push_to_server [⟨1, 7, 100, 0, 0⟩] (.status 200)).ret = true ∧
    (push_to_server [⟨1, 7, 100, 0, 0⟩] (.status 200)).posts = [⟨[⟨1, 7, 100, 0, 0⟩]⟩] ∧
    (push_to_server [⟨1, 7, 100, 0, 0⟩] (.status 200)).posts.length = 1 ∧
    (push_to_server [⟨1, 7, 100, 0, 0⟩] (.status 200)).buffer = [] :=
  push_to_server_success_delivers_batch [⟨1, 7, 100, 0, 0⟩] 1 (by decide) (by decide)

/-- C3: on a failed delivery (non-200 status or transport exception) the
call returns False and the buffer contents are exactly what they were
before the call: no record is removed before delivery of the batch
containing it has been confirmed. -/
theorem push_to_server_failure_keeps_buffer
    (buffer : List AttendanceRecord) (resp : PostResult)
    (hne : buffer ≠ []) (hfail : resp ≠ .status 200) :
    (push_to_server buffer resp).ret = false ∧
    (push_to_server buffer resp).buffer = buffer := by
  have hb : buffer.isEmpty = false := by
    cases buffer with
    | nil => exact absurd rfl hne
    | cons a l => rfl
  cases resp with
  | status code =>
    rcases eq_or_ne code 200 with h | h
    · subst h; exact absurd rfl hfail
    · refine ⟨?_, ?_⟩ <;> simp_all [push_to_server, hb]
  | exc => exact ⟨by simp [push_to_server, hb], by simp [push_to_server, hb]⟩

/-- Witness for C3 at a concrete buffer and a 500 response. -/
theorem push_to_server_failure_keeps_buffer_witness :
    (push_to_server [⟨1, 7, 100, 0, 0⟩] (.status 500)).ret = false ∧
    (push_to_server [⟨1, 7, 100, 0, 0⟩] (.status 500)).buffer = [⟨1, 7, 100, 0, 0⟩] :=
  push_to_server_failure_keeps_buffer [⟨1, 7, 100, 0, 0⟩] (.status 500)
    (by decide) (by decide)

/-- C8: flushing an empty buffer is a no-op: push_to_server returns True
immediately, issues no POST, sends no notification, and leaves the buffer
empty, whatever the network would have answered. -/
theorem push_to_server_empty_noop (resp : PostResult) :
    push_to_server [] resp =
      { ret := true, buffer := [], posts := [], notices := [] } := by
  rfl

/-- Result of one push_batch call: the returned boolean, the POSTs
attempted (in order), and the time.sleep durations between consecutive
attempts (in order). -/
structure BatchRun where
  success : Bool
  posts : List Payload
  sleeps : List Nat
deriving DecidableEq, Repr

/-- The while loop of sync_all.py push_batch (lines 95-110), unrolled on
the number of remaining permitted attempts: remaining stands for
retries + 1 - attempt, so the loop guard attempt <= retries reads
0 < remaining.  responses gives each attempt's outcome, indexed by the
attempt counter.  On a 200 response the loop returns True; otherwise the
counter advances and, when another attempt is still permitted, the loop
sleeps backoff seconds and doubles backoff up to the 30s cap. -/
def pushBatchGo (payload : Payload) (responses : Nat → PostResult)
    (attempt backoff : Nat) : Nat → BatchRun
  | 0 => { success := false, posts := [], sleeps := [] }
  | remaining + 1 =>
    if responses attempt = .status 200 then
      { success := true, posts := [payload], sleeps := [] }
    else
      match remaining with
      | 0 => { success := false, posts := [payload], sleeps := [] }
      | r + 1 =>
        let rest := pushBatchGo payload responses (attempt + 1) (min (backoff * 2) 30) (r + 1)
        { success := rest.success, posts := payload :: rest.posts, sleeps := backoff :: rest.sleeps }

/-- sync_all.py push_batch (lines 91-111): payload is the one-field JSON
object built once from a copy of the batch; attempt starts at 0, backoff
at 2, and at most retries + 1 attempts are made. -/
def push_batch (batch : List AttendanceRecord) (responses : Nat → PostResult)
    (retries : Nat) : BatchRun :=
  pushBatchGo ⟨batch⟩ responses 0 2 (retries + 1)

/-- Adjacent-delay relation claimed by the spec: strictly increasing until
the 30-second cap, equal once at the cap. -/
def backoffStep (a b : Nat) : Prop := a < b ∨ (a = 30 ∧ b = 30)

/-- Behaviour of the push_batch loop when every permitted attempt fails:
posts one payload per permitted attempt, never succeeds, and the recorded
sleeps start at the current backoff, obey backoffStep, and stay at most
30.  Stated over an arbitrary loop entry point for the induction. -/
theorem pushBatchGo_all_fail (payload : Payload) (responses : Nat → PostResult) :
    ∀ (remaining attempt backoff : Nat),
      (∀ k, attempt ≤ k → k < attempt + remaining → responses k ≠ .status 200) →
      1 ≤ backoff → backoff ≤ 30 →
      (pushBatchGo payload responses attempt backoff remaining).success = false ∧
      (pushBatchGo payload responses attempt backoff remaining).posts =
        List.replicate remaining payload ∧
      (pushBatchGo payload responses attempt backoff remaining).sleeps.length =
        remaining - 1 ∧
      (pushBatchGo payload responses attempt backoff remaining).sleeps.head? =
        (if remaining ≤ 1 then none else some backoff) ∧
      List.Chain' backoffStep (pushBatchGo payload responses attempt backoff remaining).sleeps ∧
      (∀ d ∈ (pushBatchGo payload responses attempt backoff remaining).sleeps, d ≤ 30)
  | 0, attempt, backoff, _, _, _ => by
      simp [pushBatchGo]
  | 1, attempt, backoff, hf, hb1, hb30 => by
      have hne : responses attempt ≠ .status 200 := hf attempt (Nat.le_refl _) (by omega)
      simp [pushBatchGo, hne]
  | (r + 2), attempt, backoff, hf, hb1, hb30 => by
      have hne : responses attempt ≠ .status 200 := hf attempt (Nat.le_refl _) (by omega)
      have hrec := pushBatchGo_all_fail payload responses (r + 1) (attempt + 1)
        (min (backoff * 2) 30)
        (fun k hk1 hk2 => hf k (by omega) (by omega))
        (by omega) (by omega)
      obtain ⟨hs, hp, hl, hh, hc, hd⟩ := hrec
      refine ⟨?_, ?_, ?_, ?_, ?_, ?_⟩
      · simp [pushBatchGo, hne, hs]
      · simp [pushBatchGo, hne, hp, List.replicate_succ]
      · simp [pushBatchGo, hne, hl]
      · simp [pushBatchGo, hne]
      · have hstep : ∀ y ∈ (pushBatchGo payload responses (attempt + 1)
            (min (backoff * 2) 30) (r + 1)).sleeps.head?, backoffStep backoff y := by
          intro y hy
          rw [hh] at hy
          rcases Nat.lt_or_ge r 1 with hr | hr
          · interval_cases r
            · simp at hy
          · rw [if_neg (by omega)] at hy
            simp at hy
            subst hy
            rcases Nat.lt_or_ge backoff 30 with h30 | h30
            · exact Or.inl (by omega)
            · have : backoff = 30 := by omega
              subst this
              exact Or.inr ⟨rfl, by omega⟩
        simp only [pushBatchGo, if_neg hne]
        exact List.chain'_cons'.mpr ⟨hstep, hc⟩
      · intro d hd2
        simp only [pushBatchGo, if_neg hne, List.mem_cons] at hd2
        rcases hd2 with h | h
        · omega
        · exact hd d h

/-- C2: with retry budget maxRetries and every attempt failing, push_batch
makes exactly maxRetries + 1 POSTs (one initial plus maxRetries retries),
the maxRetries delays between consecutive attempts are strictly
increasing until the 30-second cap and equal at the cap thereafter (all
at most 30), and the call returns False. -/
theorem push_batch_sustained_failure
    (batch : List AttendanceRecord) (responses : Nat → PostResult) (maxRetries : Nat)
    (hf : ∀ k, k ≤ maxRetries → responses k ≠ .status 200) :
    (push_batch batch responses maxRetries).success = false ∧
    (push_batch batch responses maxRetries).posts.length = maxRetries + 1 ∧
    (push_batch batch responses maxRetries).sleeps.length = maxRetries ∧
    List.Chain' backoffStep (push_batch batch responses maxRetries).sleeps ∧
    (∀ d ∈ (push_batch batch responses maxRetries).sleeps, d ≤ 30) := by
  have h := pushBatchGo_all_fail ⟨batch⟩ responses (maxRetries + 1) 0 2
    (fun k _ hk2 => hf k (by omega)) (by omega) (by omega)
  obtain ⟨hs, hp, hl, _, hc, hd⟩ := h
  refine ⟨hs, ?_, ?_, hc, hd⟩
  · show (pushBatchGo ⟨batch⟩ responses 0 2 (maxRetries + 1)).posts.length = maxRetries + 1
    rw [hp, List.length_replicate]
  · show (pushBatchGo ⟨batch⟩ responses 0 2 (maxRetries + 1)).sleeps.length = maxRetries
    omega

/-- Witness for C2: three POSTs, two capped growing delays, False, at
retry budget 2 against a server that always answers 500. -/
theorem push_batch_sustained_failure_witness :
    (push_batch [⟨1, 7, 100, 0, 0⟩] (fun _ => .status 500) 2).success = false ∧
    (push_batch [⟨1, 7, 100, 0, 0⟩] (fun _ => .status 500) 2).posts.length = 2 + 1 ∧
    (push_batch [⟨1, 7, 100, 0, 0⟩] (fun _ => .status 500) 2).sleeps.length = 2 ∧
    List.Chain' backoffStep (push_batch [⟨1, 7, 100, 0, 0⟩] (fun _ => .status 500) 2).sleeps ∧
    (∀ d ∈ (push_batch [⟨1, 7, 100, 0, 0⟩] (fun _ => .status 500) 2).sleeps, d ≤ 30) :=
  push_batch_sustained_failure [⟨1, 7, 100, 0, 0⟩] (fun _ => .status 500) 2
    (fun k _ => by simp)

/-- Every POST the push_batch retry loop makes carries the payload built
once before the loop; the batch itself is never touched. -/
theorem pushBatchGo_posts_fixed (payload : Payload) (responses : Nat → PostResult) :
    ∀ (remaining attempt backoff : Nat),
      ∀ p ∈ (pushBatchGo payload responses attempt backoff remaining).posts, p = payload
  | 0, attempt, backoff => by simp [pushBatchGo]
  | 1, attempt, backoff => by
      by_cases h : responses attempt = .status 200 <;> simp [pushBatchGo, h]
  | (r + 2), attempt, backoff => by
      by_cases h : responses attempt = .status 200
      · simp [pushBatchGo, h]
      · intro p hp
        simp only [pushBatchGo, if_neg h, List.mem_cons] at hp
        rcases hp with h1 | h1
        · exact h1
        · exact pushBatchGo_posts_fixed payload responses (r + 1) (attempt + 1)
            (min (backoff * 2) 30) p h1

/-- C4 counterexample: on a successful (HTTP 200) delivery, push_to_server
clears the caller's buffer in place, so the caller's collection of records
is NOT unchanged after the call for the success outcome. -/
theorem push_to_server_success_mutates_caller :
    (push_to_server [⟨1, 7, 100, 0, 0⟩] (.status 200)).buffer ≠ [⟨1, 7, 100, 0, 0⟩] := by
  decide

/-- C4 amended: the delivery POST body is always a snapshot equal to the
caller's collection at call time (push_batch re-sends the same payload on
every retry and never touches the batch), and on a failure or exception
outcome the caller's collection is unchanged; only a successful
push_to_server call clears the buffer in place (its snapshot-and-clear
step). -/
theorem delivery_preserves_batch
    (batch : List AttendanceRecord) (responses : Nat → PostResult) (retries : Nat)
    (buffer : List AttendanceRecord) (resp : PostResult) :
    (push_batch batch responses retries).posts.all
      (fun p => decide (p.Json = batch)) = true ∧
    (push_to_server buffer resp).posts.all
      (fun p => decide (p.Json = buffer)) = true ∧
    (push_to_server buffer resp).buffer =
      (if resp = PostResult.status 200 then [] else buffer) := by
  refine ⟨?_, ?_, ?_⟩
  · rw [List.all_eq_true]
    intro p hp
    have := pushBatchGo_posts_fixed ⟨batch⟩ responses (retries + 1) 0 2 p hp
    subst this
    simp
  · rw [List.all_eq_true]
    intro p hp
    cases buffer with
    | nil => simp [push_to_server] at hp
    | cons a l =>
      cases resp with
      | status code =>
        rcases eq_or_ne code 200 with h | h
        · subst h; simp [push_to_server] at hp; simp [hp]
        · simp_all [push_to_server]
      | exc => simp [push_to_server] at hp; simp [hp]
  · cases buffer with
    | nil =>
      cases resp with
      | status code =>
        rcases eq_or_ne code 200 with h | h
        · subst h; simp [push_to_server]
        · simp [push_to_server, h]
      | exc => simp [push_to_server]
    | cons a l =>
      cases resp with
      | status code =>
        rcases eq_or_ne code 200 with h | h
        · subst h; simp [push_to_server]
        · simp_all [push_to_server]
      | exc => simp [push_to_server]

/-- Witness for C4 amended, instantiated at a concrete batch, buffer and
failing network. -/
theorem delivery_preserves_batch_witness :
    (push_batch [⟨1, 7, 100, 0, 0⟩] (fun _ => .exc) 1).posts.all
      (fun p => decide (p.Json = [⟨1, 7, 100, 0, 0⟩])) = true ∧
    (push_to_server [⟨2, 8, 200, 1, 1⟩] .exc).posts.all
      (fun p => decide (p.Json = [⟨2, 8, 200, 1, 1⟩])) = true ∧
    (push_to_server [⟨2, 8, 200, 1, 1⟩] .exc).buffer =
      (if PostResult.exc = PostResult.status 200 then [] else [⟨2, 8, 200, 1, 1⟩]) :=
  delivery_preserves_batch [⟨1, 7, 100, 0, 0⟩] (fun _ => .exc) 1 [⟨2, 8, 200, 1, 1⟩] .exc

/-- sync_all.py in_range (lines 78-83): reject timestamps before the given
start or after the given end; a missing bound (None) never rejects. -/
def in_range (ts : Nat) (start_dt end_dt : Option Nat) : Bool :=
  if start_dt.any (fun s => decide (ts < s)) then false
  else if end_dt.any (fun e => decide (e < ts)) then false
  else true

/-- sync_all.py chunked (lines 86-88): for i in range(0, len(l), size)
yield l[i : i + size].  For size >= 1 that loop runs at most len(l)
iterations, the bound used here as structural fuel; each iteration emits
the next size-slice and the remainder shrinks by at least one.  (Python
raises ValueError when size = 0; main never reaches that case because it
passes max(1, chunk).) -/
def chunkedGo {α : Type} (size : Nat) : Nat → List α → List (List α)
  | _, [] => []
  | 0, _ :: _ => []
  | fuel + 1, x :: xs => ((x :: xs).take size) :: chunkedGo size fuel ((x :: xs).drop size)

def chunked {α : Type} (l : List α) (size : Nat) : List (List α) :=
  chunkedGo size l.length l

/-- sync_all.py main line 184: chunk_size = max(1, args.chunk); the CLI
chunk value is an arbitrary (possibly negative) integer. -/
def chunk_size (chunk : Int) : Nat := (max 1 chunk).toNat

/-- Comparison used to sort a device's logs: the sort key in
sync_all.py line 210 is the fixed-width timestamp string, whose
lexicographic order is chronological order. -/
def recLE (a b : AttendanceRecord) : Bool := decide (a.timestamp ≤ b.timestamp)

/-- sync_all.py main lines 193-206: when an explicit start or end date is
given, keep exactly the records whose timestamp is in range; otherwise
keep everything.  (The timestamp-parse try/except never skips a record
here: every record reaching this point was formatted by
collect_device_logs with the same fixed strftime pattern.) -/
def filter_by_range (raw : List AttendanceRecord) (start_dt end_dt : Option Nat) :
    List AttendanceRecord :=
  if start_dt.isSome || end_dt.isSome then
    raw.filter (fun r => in_range r.timestamp start_dt end_dt)
  else raw

/-- sync_all.py main lines 193-212: filter by range, then stable-sort by
timestamp (Python list.sort is stable; modelled with the stable
mergeSort). -/
def device_logs_pipeline (raw : List AttendanceRecord) (start_dt end_dt : Option Nat) :
    List AttendanceRecord :=
  (filter_by_range raw start_dt end_dt).mergeSort recLE

/-- Result of the per-device batch loop in sync_all.py main: which batches
were handed to push_batch (in order), how many records entered
total_pushed, and whether the loop broke off after a failed push. -/
structure DeviceRun where
  posted : List (List AttendanceRecord)
  pushed : Nat
  aborted : Bool
deriving DecidableEq, Repr

/-- sync_all.py main lines 219-225: push each chunk in order; a failed
push breaks out of the loop, so no later chunk of this device is posted;
a successful chunk adds its size to total_pushed.  deliver i is the
eventual outcome of push_batch for the i-th chunk (0-based; the source
enumerates from 1 only for log text). -/
def push_chunks (deliver : Nat → Bool) : Nat → List (List AttendanceRecord) → DeviceRun
  | _, [] => { posted := [], pushed := 0, aborted := false }
  | i, c :: cs =>
    if deliver i then
      let rest := push_chunks deliver (i + 1) cs
      { posted := c :: rest.posted, pushed := c.length + rest.pushed, aborted := rest.aborted }
    else
      { posted := [c], pushed := 0, aborted := true }

/-- One device's iteration of the loop in sync_all.py main lines 187-225:
skip when nothing was collected, filter and sort, skip when nothing is
left, else push in chunks. -/
def run_device (raw : List AttendanceRecord) (start_dt end_dt : Option Nat)
    (size : Nat) (deliver : Nat → Bool) : DeviceRun :=
  if raw.isEmpty then { posted := [], pushed := 0, aborted := false }
  else
    let logs := device_logs_pipeline raw start_dt end_dt
    if logs.isEmpty then { posted := [], pushed := 0, aborted := false }
    else push_chunks deliver 0 (chunked logs size)

/-- All records a device's run handed to the delivery client, in POST
order. -/
def delivered (raw : List AttendanceRecord) (start_dt end_dt : Option Nat)
    (size : Nat) (deliver : Nat → Bool) : List AttendanceRecord :=
  ((run_device raw start_dt end_dt size deliver).posted).flatten

/-- The per-log conversion loop of sync_all.py collect_device_logs
(lines 139-152): build the dict for each fetched log in order, skipping a
log whose conversion raises (modelled by convert returning none). -/
def convertLogs {ρ : Type} (convert : ρ → Option AttendanceRecord) (logs : List ρ) :
    List AttendanceRecord :=
  logs.foldl
    (fun out log =>
      match convert log with
      | some r => out ++ [r]
      | none => out)
    []

/-- sync_all.py collect_device_logs (lines 114-166): any exception while
connecting or fetching is caught and yields [] (fetch = error); a None or
empty log set yields []; otherwise the conversion loop runs.  The finally
block only disconnects and swallows its own errors, so it never changes
the returned value. -/
def collect_device_logs {ρ : Type} (fetch : Except Unit (List ρ))
    (convert : ρ → Option AttendanceRecord) : List AttendanceRecord :=
  match fetch with
  | .error _ => []
  | .ok logs => if logs.isEmpty then [] else convertLogs convert logs

/-- A device as the resync run sees it: the outcome of connect+fetch, the
per-log conversion, and the eventual per-chunk delivery outcome. -/
structure DeviceEnv (ρ : Type) where
  fetch : Except Unit (List ρ)
  convert : ρ → Option AttendanceRecord
  deliver : Nat → Bool

/-- Accumulated state of the device loop in sync_all.py main. -/
structure ResyncState where
  runs : List DeviceRun
  total_pushed : Nat
deriving DecidableEq, Repr

/-- The device loop of sync_all.py main (lines 186-227): every configured
device is processed in order, whatever happened to the previous ones; a
per-device abort only ends that device's chunk loop. -/
def resync_main {ρ : Type} (envs : List (DeviceEnv ρ)) (start_dt end_dt : Option Nat)
    (size : Nat) : ResyncState :=
  envs.foldl
    (fun st env =>
      let run := run_device (collect_device_logs env.fetch env.convert)
        start_dt end_dt size env.deliver
      { runs := st.runs ++ [run], total_pushed := st.total_pushed + run.pushed })
    { runs := [], total_pushed := 0 }

/-- The chunking loop rebuilds the whole list: with a positive size and
enough fuel (one unit per loop iteration, at most the length), the
concatenation of the emitted slices is the input. -/
theorem chunkedGo_flatten {α : Type} (size : Nat) (hs : 1 ≤ size) :
    ∀ (fuel : Nat) (l : List α), l.length ≤ fuel →
      (chunkedGo size fuel l).flatten = l := by
  intro fuel
  induction fuel with
  | zero =>
    intro l hl
    cases l with
    | nil => simp [chunkedGo]
    | cons a l => simp at hl
  | succ n ih =>
    intro l hl
    cases l with
    | nil => simp [chunkedGo]
    | cons a l =>
      simp only [chunkedGo, List.flatten_cons]
      rw [ih ((a :: l).drop size)
        (by simp only [List.length_drop, List.length_cons]
            simp only [List.length_cons] at hl
            omega)]
      exact List.take_append_drop size (a :: l)

/-- Every slice the chunking loop emits is non-empty and no longer than
the chunk size (given a positive size). -/
theorem chunkedGo_mem {α : Type} (size : Nat) (hs : 1 ≤ size) :
    ∀ (fuel : Nat) (l : List α), ∀ ch ∈ chunkedGo size fuel l,
      ch ≠ [] ∧ ch.length ≤ size := by
  intro fuel
  induction fuel with
  | zero =>
    intro l ch hch
    cases l with
    | nil => simp [chunkedGo] at hch
    | cons a l => simp [chunkedGo] at hch
  | succ n ih =>
    intro l ch hch
    cases l with
    | nil => simp [chunkedGo] at hch
    | cons a l =>
      simp only [chunkedGo, List.mem_cons] at hch
      rcases hch with h | h
      · subst h
        constructor
        · cases size with
          | zero => omega
          | succ m => simp [List.take_succ_cons]
        · simp [List.length_take]
      · exact ih ((a :: l).drop size) ch h

/-- C9: the effective chunk size used by sync_all.main is max(1, chunk),
which is at least 1 for every CLI value including zero and negatives, and
with that size chunked is total and partitions its input: consecutive
non-empty slices, each of length at most the effective size, whose
concatenation is the original list. -/
theorem chunked_total_partition (l : List AttendanceRecord) (chunk : Int) :
    1 ≤ chunk_size chunk ∧
    (∀ ch ∈ chunked l (chunk_size chunk),
      ch ≠ [] ∧ ch.length ≤ chunk_size chunk) ∧
    (chunked l (chunk_size chunk)).flatten = l := by
  have h1 : 1 ≤ chunk_size chunk := by
    have h : (1 : Int) ≤ max 1 chunk := le_max_left 1 chunk
    simp only [chunk_size]
    omega
  exact ⟨h1,
    fun ch hch => chunkedGo_mem (chunk_size chunk) h1 l.length l ch hch,
    chunkedGo_flatten (chunk_size chunk) h1 l.length l (Nat.le_refl _)⟩

/-- Witness for C9 with a negative CLI chunk value and a concrete
three-record list (effective size 1), plus the slice bound instantiated
at a concrete emitted slice for size 2. -/
theorem chunked_total_partition_witness :
    1 ≤ chunk_size (-5) ∧
    (chunked ([⟨1, 7, 100, 0, 0⟩, ⟨1, 8, 90, 0, 0⟩, ⟨1, 9, 80, 0, 0⟩] : List AttendanceRecord)
      (chunk_size (-5))).flatten =
      ([⟨1, 7, 100, 0, 0⟩, ⟨1, 8, 90, 0, 0⟩, ⟨1, 9, 80, 0, 0⟩] : List AttendanceRecord) ∧
    (([⟨1, 7, 100, 0, 0⟩, ⟨1, 8, 90, 0, 0⟩] : List AttendanceRecord) ≠ [] ∧
      ([⟨1, 7, 100, 0, 0⟩, ⟨1, 8, 90, 0, 0⟩] : List AttendanceRecord).length ≤ chunk_size 2) :=
  ⟨(chunked_total_partition [⟨1, 7, 100, 0, 0⟩, ⟨1, 8, 90, 0, 0⟩, ⟨1, 9, 80, 0, 0⟩] (-5)).1,
   (chunked_total_partition [⟨1, 7, 100, 0, 0⟩, ⟨1, 8, 90, 0, 0⟩, ⟨1, 9, 80, 0, 0⟩] (-5)).2.2,
   (chunked_total_partition [⟨1, 7, 100, 0, 0⟩, ⟨1, 8, 90, 0, 0⟩, ⟨1, 9, 80, 0, 0⟩] 2).2.1
     [⟨1, 7, 100, 0, 0⟩, ⟨1, 8, 90, 0, 0⟩] (by decide)⟩

/-- The append-accumulator conversion loop equals filterMap: conversions
that succeed are kept in original order, failing ones are skipped. -/
theorem convertLogs_eq_filterMap {ρ : Type} (convert : ρ → Option AttendanceRecord)
    (logs : List ρ) : convertLogs convert logs = logs.filterMap convert := by
  suffices h : ∀ out : List AttendanceRecord,
      logs.foldl
        (fun out log =>
          match convert log with
          | some r => out ++ [r]
          | none => out)
        out = out ++ logs.filterMap convert by
    simpa [convertLogs] using h []
  induction logs with
  | nil => simp
  | cons a l ih =>
    intro out
    cases h : convert a with
    | none => simp [List.filterMap_cons, h, ih]
    | some r => simp [List.filterMap_cons, h, ih, List.append_assoc]

/-- C10: collect_device_logs confines all per-device errors: a failed
connect or fetch yields the empty list instead of propagating, and an
ok fetch yields, in original device order, exactly the conversions of
the fetched logs whose conversion does not raise. -/
theorem collect_device_logs_confines {ρ : Type} (fetch : Except Unit (List ρ))
    (convert : ρ → Option AttendanceRecord) :
    collect_device_logs fetch convert =
      (match fetch with
       | .error _ => []
       | .ok logs => logs.filterMap convert) := by
  cases fetch with
  | error e => rfl
  | ok logs =>
    cases logs with
    | nil => rfl
    | cons a l =>
      simp only [collect_device_logs, List.isEmpty_cons, if_false]
      exact convertLogs_eq_filterMap convert (a :: l)

/-- The timestamp comparison is transitive. -/
theorem recLE_trans (a b c : AttendanceRecord)
    (h1 : recLE a b = true) (h2 : recLE b c = true) : recLE a c = true := by
  simp only [recLE, decide_eq_true_eq] at *
  omega

/-- The timestamp comparison is total. -/
theorem recLE_total (a b : AttendanceRecord) : (recLE a b || recLE b a) = true := by
  simp only [recLE, Bool.or_eq_true, decide_eq_true_eq]
  omega

/-- Stability of the sort, phrased on timestamp classes: restricted to the
records of any one timestamp, the sorted list is literally the input list
(original device order kept among ties). -/
theorem mergeSort_timestamp_class (logs : List AttendanceRecord) (t : Nat) :
    (logs.mergeSort recLE).filter (fun r => decide (r.timestamp = t)) =
      logs.filter (fun r => decide (r.timestamp = t)) := by
  have hsub : List.Sublist (logs.filter (fun r => decide (r.timestamp = t)))
      (logs.mergeSort recLE) := by
    apply List.sublist_mergeSort
      (fun a b c h1 h2 => recLE_trans a b c h1 h2)
      (fun a b => recLE_total a b)
    · apply List.pairwise_of_forall_mem_list
      intro a ha b hb
      have ha2 := (List.mem_filter.mp ha).2
      have hb2 := (List.mem_filter.mp hb).2
      simp only [decide_eq_true_eq] at ha2 hb2
      show recLE a b = true
      simp only [recLE, decide_eq_true_eq]
      omega
    · exact List.filter_sublist logs
  have hself : (logs.filter (fun r => decide (r.timestamp = t))).filter
      (fun r => decide (r.timestamp = t)) =
      logs.filter (fun r => decide (r.timestamp = t)) :=
    List.filter_eq_self.mpr (fun a ha => (List.mem_filter.mp ha).2)
  have hsub2 : List.Sublist (logs.filter (fun r => decide (r.timestamp = t)))
      ((logs.mergeSort recLE).filter (fun r => decide (r.timestamp = t))) := by
    have h := hsub.filter (fun r => decide (r.timestamp = t))
    rwa [hself] at h
  have hperm : List.Perm
      ((logs.mergeSort recLE).filter (fun r => decide (r.timestamp = t)))
      (logs.filter (fun r => decide (r.timestamp = t))) :=
    (List.mergeSort_perm logs recLE).filter (fun r => decide (r.timestamp = t))
  exact (hsub2.eq_of_length hperm.length_eq.symm).symm

/-- With every chunk delivery succeeding, the run posts every chunk, so
the delivered records are exactly the pipeline output. -/
theorem push_chunks_all_ok (deliver : Nat → Bool) (h : ∀ i, deliver i = true) :
    ∀ (i : Nat) (chunks : List (List AttendanceRecord)),
      (push_chunks deliver i chunks).posted = chunks := by
  intro i chunks
  induction chunks generalizing i with
  | nil => rfl
  | cons c cs ih => simp [push_chunks, h i, ih]

/-- Under a positive chunk size and a fully successful delivery, the
records a device run delivers are exactly its filtered-and-sorted logs. -/
theorem delivered_eq_pipeline (raw : List AttendanceRecord)
    (start_dt end_dt : Option Nat) (size : Nat) (deliver : Nat → Bool)
    (hsize : 1 ≤ size) (hdeliver : ∀ i, deliver i = true) :
    delivered raw start_dt end_dt size deliver =
      device_logs_pipeline raw start_dt end_dt := by
  cases hraw : raw.isEmpty with
  | true =>
    have : raw = [] := by
      cases raw with
      | nil => rfl
      | cons a l => simp at hraw
    subst this
    simp [delivered, run_device, device_logs_pipeline, filter_by_range]
  | false =>
    cases hlogs : (device_logs_pipeline raw start_dt end_dt).isEmpty with
    | true =>
      have hnil : device_logs_pipeline raw start_dt end_dt = [] := by
        cases h : device_logs_pipeline raw start_dt end_dt with
        | nil => rfl
        | cons a l => rw [h] at hlogs; simp at hlogs
      simp [delivered, run_device, hraw, hlogs, hnil]
    | false =>
      simp only [delivered, run_device, hraw, hlogs, Bool.false_eq_true, if_false]
      rw [push_chunks_all_ok deliver hdeliver]
      exact chunkedGo_flatten size hsize _ _ (Nat.le_refl _)

/-- C5: with an explicit from/to range, a positive chunk size and
successful delivery, the records delivered for a device are exactly the
fetched records whose timestamps are in range (a permutation of that
filter, each delivered record in range), sorted ascending by timestamp,
and ties keep the original device order (the delivered records of any one
timestamp are exactly the in-range input records of that timestamp, in
input order). -/
theorem resync_range_filter_sorted
    (raw : List AttendanceRecord) (s e : Nat) (size : Nat) (deliver : Nat → Bool)
    (hsize : 1 ≤ size) (hdeliver : ∀ i, deliver i = true) :
    List.Perm (delivered raw (some s) (some e) size deliver)
      (raw.filter (fun r => in_range r.timestamp (some s) (some e))) ∧
    (∀ r ∈ delivered raw (some s) (some e) size deliver,
      in_range r.timestamp (some s) (some e) = true) ∧
    List.Pairwise (fun a b : AttendanceRecord => a.timestamp ≤ b.timestamp)
      (delivered raw (some s) (some e) size deliver) ∧
    (∀ t : Nat,
      (delivered raw (some s) (some e) size deliver).filter
          (fun r => decide (r.timestamp = t)) =
        (raw.filter (fun r => in_range r.timestamp (some s) (some e))).filter
          (fun r => decide (r.timestamp = t))) := by
  have hpipe : device_logs_pipeline raw (some s) (some e) =
      (raw.filter (fun r => in_range r.timestamp (some s) (some e))).mergeSort recLE := by
    simp [device_logs_pipeline, filter_by_range]
  have hdel := delivered_eq_pipeline raw (some s) (some e) size deliver hsize hdeliver
  rw [hdel, hpipe]
  refine ⟨?_, ?_, ?_, ?_⟩
  · exact List.mergeSort_perm _ recLE
  · intro r hr
    have hr2 := (List.mergeSort_perm
      (raw.filter (fun r => in_range r.timestamp (some s) (some e))) recLE).mem_iff.mp hr
    exact (List.mem_filter.mp hr2).2
  · have hs := List.sorted_mergeSort
      (fun a b c h1 h2 => recLE_trans a b c h1 h2)
      (fun a b => recLE_total a b)
      (raw.filter (fun r => in_range r.timestamp (some s) (some e)))
    exact hs.imp (fun h => by simpa [recLE] using h)
  · intro t
    exact mergeSort_timestamp_class _ t

/-- Witness for C5 at a two-record, one-out-of-range history. -/
theorem resync_range_filter_sorted_witness :
    List.Perm (delivered [⟨1, 7, 5, 0, 0⟩, ⟨1, 8, 50, 0, 0⟩] (some 1) (some 9) 1 (fun _ => true))
      (([⟨1, 7, 5, 0, 0⟩, ⟨1, 8, 50, 0, 0⟩] : List AttendanceRecord).filter
        (fun r => in_range r.timestamp (some 1) (some 9))) ∧
    List.Pairwise (fun a b : AttendanceRecord => a.timestamp ≤ b.timestamp)
      (delivered [⟨1, 7, 5, 0, 0⟩, ⟨1, 8, 50, 0, 0⟩] (some 1) (some 9) 1 (fun _ => true)) ∧
    (delivered [⟨1, 7, 5, 0, 0⟩, ⟨1, 8, 50, 0, 0⟩] (some 1) (some 9) 1 (fun _ => true)).filter
        (fun r => decide (r.timestamp = 5)) =
      (([⟨1, 7, 5, 0, 0⟩, ⟨1, 8, 50, 0, 0⟩] : List AttendanceRecord).filter
          (fun r => in_range r.timestamp (some 1) (some 9))).filter
        (fun r => decide (r.timestamp = 5)) := by
  have h := resync_range_filter_sorted [⟨1, 7, 5, 0, 0⟩, ⟨1, 8, 50, 0, 0⟩] 1 9 1
    (fun _ => true) (by omega) (fun i => rfl)
  exact ⟨h.1, h.2.2.1, h.2.2.2 5⟩

/-- If the chunk at offset i is the first to fail, the chunk loop posts
exactly the chunks up to and including it, then breaks. -/
theorem push_chunks_first_failure (deliver : Nat → Bool) :
    ∀ (chunks : List (List AttendanceRecord)) (k i : Nat),
      (∀ j, j < i → deliver (k + j) = true) → deliver (k + i) = false →
      i < chunks.length →
      (push_chunks deliver k chunks).posted = chunks.take (i + 1) ∧
      (push_chunks deliver k chunks).aborted = true := by
  intro chunks
  induction chunks with
  | nil => intro k i _ _ hlen; simp at hlen
  | cons c cs ih =>
    intro k i hok hfail hlen
    cases i with
    | zero =>
      have hk : deliver k = false := by
        have := hfail
        rwa [Nat.add_zero] at this
      simp [push_chunks, hk]
    | succ i' =>
      have hk : deliver k = true := by
        have := hok 0 (Nat.succ_pos i')
        rwa [Nat.add_zero] at this
      have hrest := ih (k + 1) i'
        (fun j hj => by
          have := hok (j + 1) (by omega)
          rwa [show k + (j + 1) = k + 1 + j by omega] at this)
        (by
          have := hfail
          rwa [show k + (i' + 1) = k + 1 + i' by omega] at this)
        (by simp only [List.length_cons] at hlen; omega)
      refine ⟨?_, ?_⟩
      · simp [push_chunks, hk, hrest.1, List.take_succ_cons]
      · simp [push_chunks, hk, hrest.2]

/-- The device loop visits every device: its accumulated run list is the
map of the per-device run over the configured devices, whatever each
device's own outcome was. -/
theorem resync_main_runs {ρ : Type} (envs : List (DeviceEnv ρ))
    (start_dt end_dt : Option Nat) (size : Nat) :
    (resync_main envs start_dt end_dt size).runs =
      envs.map (fun env => run_device (collect_device_logs env.fetch env.convert)
        start_dt end_dt size env.deliver) := by
  suffices h : ∀ (st : ResyncState),
      (envs.foldl
        (fun st env =>
          let run := run_device (collect_device_logs env.fetch env.convert)
            start_dt end_dt size env.deliver
          { runs := st.runs ++ [run], total_pushed := st.total_pushed + run.pushed })
        st).runs =
      st.runs ++ envs.map (fun env => run_device (collect_device_logs env.fetch env.convert)
        start_dt end_dt size env.deliver) by
    simpa [resync_main] using h { runs := [], total_pushed := 0 }
  induction envs with
  | nil => intro st; simp
  | cons env rest ih =>
    intro st
    simp only [List.foldl_cons, List.map_cons]
    rw [ih]
    simp

/-- C6: in a resync run, every configured device gets its collection and
delivery attempt (the run's results are the independent per-device runs,
in order, so one device's failure never touches the others), and within
one device, the first chunk whose delivery fails ends that device's
posting: exactly the chunks up to and including the failed one were
POSTed, none after it. -/
theorem resync_continues_after_device_failure {ρ : Type}
    (envs : List (DeviceEnv ρ)) (start_dt end_dt : Option Nat) (size : Nat)
    (env : DeviceEnv ρ) (i : Nat)
    (hok : ∀ j, j < i → env.deliver j = true) (hfail : env.deliver i = false)
    (hlen : i < (chunked (device_logs_pipeline
      (collect_device_logs env.fetch env.convert) start_dt end_dt) size).length) :
    (resync_main envs start_dt end_dt size).runs =
      envs.map (fun d => run_device (collect_device_logs d.fetch d.convert)
        start_dt end_dt size d.deliver) ∧
    (run_device (collect_device_logs env.fetch env.convert)
        start_dt end_dt size env.deliver).posted =
      (chunked (device_logs_pipeline (collect_device_logs env.fetch env.convert)
        start_dt end_dt) size).take (i + 1) ∧
    (run_device (collect_device_logs env.fetch env.convert)
        start_dt end_dt size env.deliver).aborted = true := by
  refine ⟨resync_main_runs envs start_dt end_dt size, ?_⟩
  have hlogs : (device_logs_pipeline (collect_device_logs env.fetch env.convert)
      start_dt end_dt).isEmpty = false := by
    cases hl : device_logs_pipeline (collect_device_logs env.fetch env.convert)
        start_dt end_dt with
    | nil =>
      rw [hl] at hlen
      simp [chunked, chunkedGo] at hlen
    | cons a l => rfl
  have hraw : (collect_device_logs env.fetch env.convert).isEmpty = false := by
    cases hr : collect_device_logs env.fetch env.convert with
    | nil =>
      exfalso
      have : device_logs_pipeline (collect_device_logs env.fetch env.convert)
          start_dt end_dt = [] := by
        rw [hr]
        simp [device_logs_pipeline, filter_by_range]
      rw [this] at hlogs
      simp at hlogs
    | cons a l => rfl
  have habort := push_chunks_first_failure env.deliver
    (chunked (device_logs_pipeline (collect_device_logs env.fetch env.convert)
      start_dt end_dt) size) 0 i
    (fun j hj => by rw [Nat.zero_add]; exact hok j hj)
    (by rw [Nat.zero_add]; exact hfail)
    hlen
  constructor
  · simp only [run_device, hraw, hlogs, Bool.false_eq_true, if_false]
    exact habort.1
  · simp only [run_device, hraw, hlogs, Bool.false_eq_true, if_false]
    exact habort.2

/-- Witness for C6: two one-record devices, the first failing on its first
chunk, the second unaffected. -/
theorem resync_continues_after_device_failure_witness :
    (resync_main
      [⟨Except.ok [⟨1, 7, 5, 0, 0⟩], some, fun _ => false⟩,
       ⟨Except.ok [⟨2, 8, 6, 0, 0⟩], some, fun _ => true⟩]
      (none : Option Nat) none 1).runs =
      ([⟨Except.ok [⟨1, 7, 5, 0, 0⟩], some, fun _ => false⟩,
        ⟨Except.ok [⟨2, 8, 6, 0, 0⟩], some, fun _ => true⟩] :
          List (DeviceEnv AttendanceRecord)).map
        (fun d => run_device (collect_device_logs d.fetch d.convert) none none 1 d.deliver) ∧
    (run_device (collect_device_logs
        (Except.ok [⟨1, 7, 5, 0, 0⟩] : Except Unit (List AttendanceRecord)) some)
        none none 1 (fun _ => false)).posted =
      (chunked (device_logs_pipeline (collect_device_logs
        (Except.ok [⟨1, 7, 5, 0, 0⟩] : Except Unit (List AttendanceRecord)) some)
        none none) 1).take (0 + 1) ∧
    (run_device (collect_device_logs
        (Except.ok [⟨1, 7, 5, 0, 0⟩] : Except Unit (List AttendanceRecord)) some)
        none none 1 (fun _ => false)).aborted = true := by
  have h := resync_continues_after_device_failure
    (ρ := AttendanceRecord)
    [⟨Except.ok [⟨1, 7, 5, 0, 0⟩], some, fun _ => false⟩,
     ⟨Except.ok [⟨2, 8, 6, 0, 0⟩], some, fun _ => true⟩]
    none none 1
    ⟨Except.ok [⟨1, 7, 5, 0, 0⟩], some, fun _ => false⟩ 0
    (fun j hj => absurd hj (Nat.not_lt_zero j)) rfl
    (by simp [collect_device_logs, convertLogs, device_logs_pipeline, filter_by_range,
      chunked, chunkedGo])
  exact h

/-- One wall-clock instant as the supervisor loop observes it: the
calendar date (as a day index) and the time of day. -/
structure Instant where
  day : Nat
  hour : Nat
  minute : Nat
deriving DecidableEq, Repr

/-- main.py main lines 505-514: one evaluation of the daily end-of-day
guard.  In the 23:59 window, if the stored last run date differs from
today, the end-of-day task runs and today is recorded; otherwise nothing
fires.  Returns (ran end_of_day_task, new last_eod_run_date). -/
def eod_step (now : Instant) (last_eod_run_date : Option Nat) : Bool × Option Nat :=
  if now.hour = 23 ∧ now.minute = 59 then
    if last_eod_run_date ≠ some now.day then
      (true, some now.day)
    else
      (false, last_eod_run_date)
  else
    (false, last_eod_run_date)

/-- How many times the end-of-day task runs over a sequence of guard
evaluations, threading last_eod_run_date through the loop. -/
def eod_fires (last_eod_run_date : Option Nat) : List Instant → Nat
  | [] => 0
  | t :: ts =>
    (if (eod_step t last_eod_run_date).1 then 1 else 0) +
      eod_fires (eod_step t last_eod_run_date).2 ts

/-- Once the current date is recorded, a guard evaluation on that same
date never fires and leaves the record unchanged. -/
theorem eod_fires_after_recorded (D : Nat) :
    ∀ (trace : List Instant), (∀ t ∈ trace, t.day = D) →
      eod_fires (some D) trace = 0 := by
  intro trace
  induction trace with
  | nil => intro _; rfl
  | cons t ts ih =>
    intro hD
    have ht : t.day = D := hD t (List.mem_cons_self t ts)
    have hstep : eod_step t (some D) = (false, some D) := by
      simp [eod_step, ht]
    simp only [eod_fires, hstep]
    simpa using ih (fun u hu => hD u (List.mem_cons_of_mem t hu))

/-- A guard evaluation that fires records the evaluation date. -/
theorem eod_step_records_day (t : Instant) (last : Option Nat)
    (hfire : (eod_step t last).1 = true) : (eod_step t last).2 = some t.day := by
  simp only [eod_step] at hfire ⊢
  split at hfire
  · split at hfire
    · simp_all [eod_step]
    · simp at hfire
  · simp at hfire

/-- C7: the daily guard fires at most once per calendar day: a step that
runs the task records the current date; with the date D recorded, no
evaluation whose date is still D fires again; and over any sequence of
evaluations all dated D, the task runs at most once regardless of the
starting state and of how many times the 23:59 window is observed. -/
theorem eod_at_most_once_per_day (D : Nat) (trace : List Instant)
    (hD : ∀ t ∈ trace, t.day = D) :
    eod_fires (some D) trace = 0 ∧
    (∀ last : Option Nat, eod_fires last trace ≤ 1) := by
  refine ⟨eod_fires_after_recorded D trace hD, ?_⟩
  induction trace with
  | nil => intro last; simp [eod_fires]
  | cons t ts ih =>
    intro last
    have ht : t.day = D := hD t (List.mem_cons_self t ts)
    have hDts : ∀ u ∈ ts, u.day = D := fun u hu => hD u (List.mem_cons_of_mem t hu)
    by_cases hfire : (eod_step t last).1 = true
    · have hset : (eod_step t last).2 = some D := by
        rw [eod_step_records_day t last hfire, ht]
      have hrest : eod_fires (eod_step t last).2 ts = 0 := by
        rw [hset]
        exact eod_fires_after_recorded D ts hDts
      simp [eod_fires, hfire, hrest]
    · have hfire2 : (eod_step t last).1 = false := by
        cases h : (eod_step t last).1
        · rfl
        · exact absurd h hfire
      simp only [eod_fires, hfire2, if_false]
      simpa using ih hDts (eod_step t last).2

/-- Witness for C7: two 23:59 evaluations on the same recorded day never
rerun the task. -/
theorem eod_at_most_once_per_day_witness :
    eod_fires (some 40) [⟨40, 23, 59⟩, ⟨40, 23, 59⟩] = 0 ∧
    eod_fires (none : Option Nat) [⟨40, 23, 59⟩, ⟨40, 23, 59⟩] ≤ 1 := by
  have h := eod_at_most_once_per_day 40 [⟨40, 23, 59⟩, ⟨40, 23, 59⟩]
    (by
      intro t ht
      simp only [List.mem_cons, List.mem_singleton] at ht
      rcases ht with h1 | h1 | h1
      · subst h1; rfl
      · subst h1; rfl
      · simp at h1)
  exact ⟨h.1, h.2 none⟩
